import Mathlib

/-!
Shallow embedding of the benchmark execution engine of the
`node-image-benchmarks` repository: the statistics module (`mean`,
`percentile`, `formatMb`, `round`), the case runner (`runCase`), the suite
orchestrator (the top-level task × renderer loop with its skip / fatal
protocol), the CLI configuration validators (`parseInteger`, `parseTasks`)
and the report assembler's grouping/sorting step.

JavaScript numbers are modelled as exact rationals (`ℚ`); the
high-resolution clock (`performance.now()`) and the process memory
introspection (`process.memoryUsage()`) are modelled as oracle streams
indexed by the order in which the code samples them.  Renderer `run` calls
are modelled as a deterministic function of the task and of the per-case
call counter, returning either a task output, the dedicated
`UnsupportedTaskError`, or any other (fatal) error.
-/

/-- The closed workload enumeration `BenchTaskName` from `types.ts`. -/
inductive BenchTaskName
  | imageBuffer
  | imageStream
  | kitchenSink
  | textLayout
  | encodePng
  | encodeWebp
  | encodeSvg
deriving DecidableEq, Repr

/-- Image encoding formats, from the `format` field of `TaskOutput`. -/
inductive ImgFormat
  | png
  | webp
  | svg
deriving DecidableEq, Repr

/-- The tagged union `TaskOutput` from `types.ts`: an image result carrying
its format, byte length and (abstracted) buffer contents, or a scalar
metric. -/
inductive TaskOutput
  | image (format : ImgFormat) (bytes : ℕ) (buffer : ℕ)
  | metric (value : ℚ)
deriving DecidableEq

/-- The `kind` discriminant of a `TaskOutput`. -/
inductive OutputKind
  | image
  | metric
deriving DecidableEq, Repr

/-- The `outputUnit` tag of a `BenchCaseStats` record. -/
inductive OutputUnit
  | bytes
  | value
deriving DecidableEq, Repr

/-- `process.memoryUsage()` sample: the two fields the engine reads. -/
structure MemSample where
  rss : ℚ
  heapUsed : ℚ
deriving DecidableEq

/-- Outcome of one `renderer.run` invocation: a result, the dedicated
`UnsupportedTaskError`, or any other thrown error. -/
inductive RunOutcome
  | ok (output : TaskOutput)
  | unsupported (reason : String)
  | fatal (message : String)

/-- An error escaping `runCase` / `prepare`: either the dedicated
`UnsupportedTaskError` (carrying its message) or any other error. -/
inductive RunError
  | unsupported (reason : String)
  | fatal (message : String)
deriving DecidableEq

/-- A backend adapter (`BenchRenderer` from `types.ts`): a name, an
optional one-time `prepare` (a no-op `prepare` is modelled as `.ok ()`),
and the `run` operation.  `run` takes the per-case call counter so that
call-dependent behaviour is expressible. -/
structure Renderer where
  name : String
  prepare : Except RunError Unit
  run : BenchTaskName → ℕ → RunOutcome

/-- Oracle streams for one case: `clock n` is the value of the `n`-th
`performance.now()` call of the measured loop, `mem n` the `n`-th
`process.memoryUsage()` sample (index 0 is the pre-measurement baseline,
index `i + 1` the sample after measured iteration `i`, index
`iterations + 1` the end-of-case sample). -/
structure CaseEnv where
  clock : ℕ → ℚ
  mem : ℕ → MemSample

/-- The validated CLI options consumed by the orchestrator. -/
structure CliOptions where
  tasks : List BenchTaskName
  iterations : ℕ
  warmup : ℕ
  saveImages : Bool
deriving DecidableEq

/-- The per-case statistics record `BenchCaseStats` from `types.ts`. -/
structure BenchCaseStats where
  renderer : String
  task : BenchTaskName
  iterations : ℕ
  warmup : ℕ
  avgMs : ℚ
  p95Ms : ℚ
  minMs : ℚ
  maxMs : ℚ
  rssPeakDeltaMb : ℚ
  heapPeakDeltaMb : ℚ
  heapEndDeltaMb : ℚ
  outputKind : OutputKind
  outputAverage : ℚ
  outputUnit : OutputUnit
deriving DecidableEq

/-- A skip record `BenchCaseSkip` from `types.ts`. -/
structure BenchCaseSkip where
  renderer : String
  task : BenchTaskName
  reason : String
deriving DecidableEq

/-- A saved-sample record (`SavedImageRecord`); the output path string is
file-system glue outside the core and is not modelled. -/
structure SavedImageRecord where
  renderer : String
  task : BenchTaskName
  format : ImgFormat
deriving DecidableEq

/-! ## Statistics module (`utils.ts`) -/

/-- `mean(values)` from `utils.ts`: `values.reduce((sum, v) => sum + v, 0)
/ values.length`, with the explicit empty-sequence guard returning 0. -/
def mean (values : List ℚ) : ℚ :=
  if values.length = 0 then 0
  else values.foldl (fun sum value => sum + value) 0 / values.length

/-- `percentile(values, fraction)` from `utils.ts`: sort a copy ascending
and select index `min(length - 1, max(0, ceil(length * fraction) - 1))`.
The trailing `?? 0` of the source is `getD _ 0`. -/
def percentile (values : List ℚ) (fraction : ℚ) : ℚ :=
  if values.length = 0 then 0
  else
    let sorted := values.insertionSort (· ≤ ·)
    let index : ℤ :=
      min ((sorted.length : ℤ) - 1) (max 0 (⌈(sorted.length : ℚ) * fraction⌉ - 1))
    sorted.getD index.toNat 0

/-- `formatMb(bytes)` from `utils.ts`: `bytes / (1024 * 1024)`. -/
def formatMb (bytes : ℚ) : ℚ :=
  bytes / (1024 * 1024)

/-- `round(value, digits = 3)` from the main module:
`Math.round(value * 10 ** 3) / 10 ** 3`, with JavaScript `Math.round`
rounding half-way cases toward `+∞`, i.e. `⌊x + 1/2⌋`. -/
def round3 (value : ℚ) : ℚ :=
  (⌊value * 1000 + 1 / 2⌋ : ℚ) / 1000

/-- `Math.min(...times)` for a non-empty list (the engine only applies it
to the measured-latency list, non-empty for every validated
configuration; the JavaScript empty-spread value `Infinity` has no
rational counterpart and is mapped to 0). -/
def jsMin : List ℚ → ℚ
  | [] => 0
  | x :: xs => xs.foldl min x

/-- `Math.max(...times)` for a non-empty list (see `jsMin`). -/
def jsMax : List ℚ → ℚ
  | [] => 0
  | x :: xs => xs.foldl max x

/-- `outputValueAsNumber(output)` from the main module: byte length for an
image result, raw value for a metric result. -/
def outputValueAsNumber : TaskOutput → ℚ
  | .image _ bytes _ => bytes
  | .metric value => value

/-- The `kind` of a `TaskOutput`. -/
def TaskOutput.kind : TaskOutput → OutputKind
  | .image _ _ _ => .image
  | .metric _ => .metric

/-! ## Case runner (`runCase` in the main module) -/

/-- Mutable loop state of `runCase`'s measured loop: the latency and
output sequences, the running memory peaks, the latest output
classification and the optional captured sample. -/
structure LoopState where
  times : List ℚ
  outputs : List ℚ
  rssPeak : ℚ
  heapPeak : ℚ
  outputKind : OutputKind
  outputUnit : OutputUnit
  sample : Option (ImgFormat × ℕ)
deriving DecidableEq

/-- The warmup loop of `runCase`: invoke `renderer.run` `fuel` more times
(call counters `i, i + 1, ...`), discarding results; an error escapes. -/
def warmupLoop (r : Renderer) (task : BenchTaskName) (i : ℕ) :
    ℕ → Except RunError Unit
  | 0 => .ok ()
  | fuel + 1 =>
    match r.run task i with
    | .ok _ => warmupLoop r task (i + 1) fuel
    | .unsupported s => .error (.unsupported s)
    | .fatal m => .error (.fatal m)

/-- One measured-loop iteration body applied to the state, given the
iteration index `i`, the run output and the two clock readings. -/
def measuredStep (opts : CliOptions) (env : CaseEnv) (i : ℕ)
    (output : TaskOutput) (start endT : ℚ) (st : LoopState) : LoopState :=
  let sample :=
    match output, st.sample, opts.saveImages with
    | .image format _ buffer, none, true => some (format, buffer)
    | _, _, _ => st.sample
  let memory := env.mem (i + 1)
  { times := st.times ++ [endT - start]
    outputs := st.outputs ++ [outputValueAsNumber output]
    rssPeak := max st.rssPeak memory.rss
    heapPeak := max st.heapPeak memory.heapUsed
    outputKind := output.kind
    outputUnit := match output.kind with | .image => .bytes | .metric => .value
    sample := sample }

/-- The measured loop of `runCase`: `fuel` more iterations starting at
iteration index `i` (run call counter `warmup + i`; clock readings
`2i` and `2i + 1`). -/
def measuredLoop (r : Renderer) (task : BenchTaskName) (opts : CliOptions)
    (env : CaseEnv) (i : ℕ) : ℕ → LoopState → Except RunError LoopState
  | 0, st => .ok st
  | fuel + 1, st =>
    let start := env.clock (2 * i)
    match r.run task (opts.warmup + i) with
    | .unsupported s => .error (.unsupported s)
    | .fatal m => .error (.fatal m)
    | .ok output =>
      let endT := env.clock (2 * i + 1)
      measuredLoop r task opts env (i + 1) fuel
        (measuredStep opts env i output start endT st)

/-- The initial loop state of `runCase`, from the captured baseline. -/
def initState (baseline : MemSample) : LoopState :=
  { times := []
    outputs := []
    rssPeak := baseline.rss
    heapPeak := baseline.heapUsed
    outputKind := .metric
    outputUnit := .value
    sample := none }

/-- Successful outcome of `runCase`: the statistics record and the
optional captured sample. -/
structure CaseSuccess where
  stats : BenchCaseStats
  sample : Option (ImgFormat × ℕ)
deriving DecidableEq

/-- Assembly of the `BenchCaseStats` record at the end of `runCase`. -/
def mkStats (task : BenchTaskName) (r : Renderer) (opts : CliOptions)
    (baseline ending : MemSample) (st : LoopState) : BenchCaseStats :=
  { renderer := r.name
    task := task
    iterations := opts.iterations
    warmup := opts.warmup
    avgMs := round3 (mean st.times)
    p95Ms := round3 (percentile st.times (95 / 100))
    minMs := round3 (jsMin st.times)
    maxMs := round3 (jsMax st.times)
    rssPeakDeltaMb := round3 (formatMb (st.rssPeak - baseline.rss))
    heapPeakDeltaMb := round3 (formatMb (st.heapPeak - baseline.heapUsed))
    heapEndDeltaMb := round3 (formatMb (ending.heapUsed - baseline.heapUsed))
    outputKind := st.outputKind
    outputAverage := round3 (mean st.outputs)
    outputUnit := st.outputUnit }

/-- `runCase(task, renderer, options, context)` from the main module:
warmup loop, baseline capture, measured loop, end-of-case sample and
statistics assembly.  The best-effort `globalThis.gc?.()` hooks have no
observable effect in the model (the memory oracle already describes what
`process.memoryUsage()` returns at each sampling point). -/
def runCase (task : BenchTaskName) (r : Renderer) (opts : CliOptions)
    (env : CaseEnv) : Except RunError CaseSuccess :=
  match warmupLoop r task 0 opts.warmup with
  | .error e => .error e
  | .ok _ =>
    let baseline := env.mem 0
    match measuredLoop r task opts env 0 opts.iterations (initState baseline) with
    | .error e => .error e
    | .ok st =>
      let ending := env.mem (opts.iterations + 1)
      .ok { stats := mkStats task r opts baseline ending st
            sample := st.sample }

/-! ## Suite orchestrator (top level of the main module) -/

/-- Per-case oracle environments, keyed by workload and renderer name. -/
def SuiteEnv : Type := BenchTaskName → String → CaseEnv

/-- The ordered list of (workload, renderer) cases the orchestrator
executes: workload-major (caller order), renderer-minor (registration
order). -/
def suitePairs (opts : CliOptions) (renderers : List Renderer) :
    List (BenchTaskName × Renderer) :=
  opts.tasks.flatMap (fun task => renderers.map (fun r => (task, r)))

/-- Outcome of one case of the suite. -/
def caseOutcome (opts : CliOptions) (envs : SuiteEnv)
    (p : BenchTaskName × Renderer) : Except RunError CaseSuccess :=
  runCase p.1 p.2 opts (envs p.1 p.2.name)

/-- Whether an outcome is a fatal (non-`UnsupportedTaskError`) error. -/
def isFatal : Except RunError CaseSuccess → Bool
  | .error (.fatal _) => true
  | _ => false

/-- The accumulators of the orchestrator loop. -/
structure SuiteAccum where
  stats : List BenchCaseStats
  skipped : List BenchCaseSkip
  savedImages : List SavedImageRecord
deriving DecidableEq

/-- The empty accumulators before the loop starts. -/
def emptyAccum : SuiteAccum :=
  { stats := [], skipped := [], savedImages := [] }

/-- The saved-image record pushed for a successful case, when image
saving is enabled and the case captured a sample. -/
def savedRecOf (opts : CliOptions) (p : BenchTaskName × Renderer)
    (out : CaseSuccess) : Option SavedImageRecord :=
  match opts.saveImages, out.sample with
  | true, some s => some { renderer := p.2.name, task := p.1, format := s.1 }
  | _, _ => none

/-- One iteration of the orchestrator loop: on success append the
statistics (and possibly a saved-image record); on `UnsupportedTaskError`
append a skip record and continue; on any other error rethrow. -/
def caseStep (opts : CliOptions) (envs : SuiteEnv) (acc : SuiteAccum)
    (p : BenchTaskName × Renderer) : Except RunError SuiteAccum :=
  match caseOutcome opts envs p with
  | .ok out =>
    .ok { acc with
          stats := acc.stats ++ [out.stats]
          savedImages := acc.savedImages ++ (savedRecOf opts p out).toList }
  | .error (.unsupported reason) =>
    .ok { acc with
          skipped := acc.skipped ++ [{ renderer := p.2.name, task := p.1, reason := reason }] }
  | .error (.fatal m) => .error (.fatal m)

/-- The orchestrator loop over the remaining cases. -/
def suiteFold (opts : CliOptions) (envs : SuiteEnv) :
    List (BenchTaskName × Renderer) → SuiteAccum → Except RunError SuiteAccum
  | [], acc => .ok acc
  | p :: rest, acc =>
    match caseStep opts envs acc p with
    | .ok acc2 => suiteFold opts envs rest acc2
    | .error e => .error e

/-- The pre-loop `prepare` pass: `for (const renderer of benchRenderers)
await renderer.prepare?.(context)`; any error — of either kind — escapes
(this loop is outside the try/catch of the case loop). -/
def prepareAll : List Renderer → Except RunError Unit
  | [] => .ok ()
  | r :: rest =>
    match r.prepare with
    | .ok _ => prepareAll rest
    | .error e => .error e

/-- The whole orchestrator: prepare every renderer, then run every
(workload, renderer) case in order, accumulating statistics, skip records
and saved-image records. -/
def runSuite (opts : CliOptions) (renderers : List Renderer)
    (envs : SuiteEnv) : Except RunError SuiteAccum :=
  match prepareAll renderers with
  | .error e => .error e
  | .ok _ => suiteFold opts envs (suitePairs opts renderers) emptyAccum

/-! ## CLI configuration validation (`parseInteger`, `parseTasks`) -/

/-- The string name of each workload (`ALL_TASKS` entries). -/
def taskName : BenchTaskName → String
  | .imageBuffer => "image-buffer"
  | .imageStream => "image-stream"
  | .kitchenSink => "kitchen-sink"
  | .textLayout => "text-layout"
  | .encodePng => "encode-png"
  | .encodeWebp => "encode-webp"
  | .encodeSvg => "encode-svg"

/-- The closed task list `ALL_TASKS` of the main module, in order. -/
def ALL_TASKS : List BenchTaskName :=
  [.imageBuffer, .imageStream, .kitchenSink, .textLayout,
   .encodePng, .encodeWebp, .encodeSvg]

/-- Inverse of `taskName` on the closed enumeration. -/
def taskOfName (s : String) : Option BenchTaskName :=
  ALL_TASKS.find? (fun t => taskName t = s)

/-- Decimal-digit run of `Number.parseInt(_, 10)`: consume the longest
digit prefix, accumulating the value, ignoring everything after it. -/
def parseDigitsAux : List Char → ℕ → ℕ
  | [], acc => acc
  | c :: cs, acc =>
    if c.isDigit then parseDigitsAux cs (acc * 10 + (c.toNat - 48)) else acc

/-- Leading digit run as a natural number; `none` when the first character
is not a decimal digit (the `NaN` case of `Number.parseInt`). -/
def parseNatPrefix : List Char → Option ℕ
  | [] => none
  | c :: cs =>
    if c.isDigit then some (parseDigitsAux cs (c.toNat - 48)) else none

/-- `Number.parseInt(value, 10)`: skip leading whitespace, read an
optional sign and a decimal digit run, ignore any trailing characters;
`none` models `NaN`. -/
def jsParseInt (s : String) : Option ℤ :=
  let cs := s.data.dropWhile (fun c => c.isWhitespace)
  match cs with
  | '-' :: rest => (parseNatPrefix rest).map (fun n => -(n : ℤ))
  | '+' :: rest => (parseNatPrefix rest).map (fun n => (n : ℤ))
  | rest => (parseNatPrefix rest).map (fun n => (n : ℤ))

/-- `parseInteger(value, fallback, label)` from the main module: an absent
value yields the fallback; a value that does not parse to a finite number
(`NaN`) or parses to a non-positive number is rejected. -/
def parseInteger (value : Option String) (fallback : ℕ) : Except String ℤ :=
  match value with
  | none => .ok fallback
  | some s =>
    match jsParseInt s with
    | none => .error "must be a positive integer"
    | some parsed =>
      if parsed ≤ 0 then .error "must be a positive integer" else .ok parsed

/-- `item.split(",")` of JavaScript: split at every comma, keeping empty
segments. -/
def splitCommaAux : List Char → List Char → List String
  | [], acc => [String.mk acc.reverse]
  | c :: cs, acc =>
    if c = ',' then String.mk acc.reverse :: splitCommaAux cs []
    else splitCommaAux cs (c :: acc)

/-- Split a string at commas (`String.prototype.split(",")`). -/
def splitComma (s : String) : List String := splitCommaAux s.data []

/-- `String.prototype.trim()`: strip leading and trailing whitespace. -/
def jsTrim (s : String) : String :=
  String.mk (((s.data.dropWhile Char.isWhitespace).reverse.dropWhile
    Char.isWhitespace).reverse)

/-- The comma-splitting / trimming / empty-dropping normalisation of the
requested workload strings in `parseTasks`. -/
def requestedNames (items : List String) : List String :=
  ((items.flatMap splitComma).map jsTrim).filter (fun item => item ≠ "")

/-- `parseTasks(value)` from the main module: absent value selects
`ALL_TASKS`; an empty request or any name outside the closed enumeration
is rejected; otherwise the requested names, in order. -/
def parseTasks (value : Option (List String)) :
    Except String (List BenchTaskName) :=
  match value with
  | none => .ok ALL_TASKS
  | some items =>
    let requested := requestedNames items
    if requested.length = 0 then
      .error "--workload requires at least one task name"
    else
      let invalid := requested.filter
        (fun item => !((ALL_TASKS.map taskName).contains item))
      if invalid.length ≠ 0 then .error "Unknown workloads"
      else .ok (requested.filterMap taskOfName)

/-- `parseCliOptions` (the validation part): validate the requested
workloads and both counts before anything runs; the fallbacks 3 and 12
are the source defaults. -/
def parseCliOptions (workload : Option (List String))
    (warmupArg iterationsArg : Option String) (saveImages : Bool) :
    Except String CliOptions :=
  match parseTasks workload with
  | .error e => .error e
  | .ok tasks =>
    match parseInteger warmupArg 3 with
    | .error e => .error e
    | .ok warmup =>
      match parseInteger iterationsArg 12 with
      | .error e => .error e
      | .ok iterations =>
        .ok { tasks := tasks
              iterations := iterations.toNat
              warmup := warmup.toNat
              saveImages := saveImages }

/-! ## Report assembler (`buildMarkdownReport` structure) -/

/-- The ordering used for the per-task rows of the report:
`(left, right) => left.avgMs - right.avgMs`, i.e. ascending average
latency. -/
def statLE (a b : BenchCaseStats) : Prop := a.avgMs ≤ b.avgMs

instance : DecidableRel statLE :=
  fun a b => inferInstanceAs (Decidable (a.avgMs ≤ b.avgMs))

instance : IsTotal BenchCaseStats statLE :=
  ⟨fun a b => le_total a.avgMs b.avgMs⟩

instance : IsTrans BenchCaseStats statLE :=
  ⟨fun _ _ _ hab hbc => le_trans hab hbc⟩

/-- The rows of one workload section of the report:
`stats.filter((entry) => entry.task === task).sort((l, r) => l.avgMs -
r.avgMs)`. -/
def taskRows (stats : List BenchCaseStats) (task : BenchTaskName) :
    List BenchCaseStats :=
  (stats.filter (fun entry => entry.task = task)).insertionSort statLE

/-- The structure of the assembled report: one section per requested
workload (in request order) with its sorted rows, then the skip section,
then the saved-images section — never interleaved. -/
structure ReportStructure where
  taskSections : List (BenchTaskName × List BenchCaseStats)
  skipped : List BenchCaseSkip
  savedImages : List SavedImageRecord
deriving DecidableEq

/-- `buildMarkdownReport`'s content, stripped of string serialization
(excluded from the core spec): the per-task grouped and sorted statistics
sections followed by the separate skipped and saved-images sections. -/
def buildReportStructure (opts : CliOptions) (stats : List BenchCaseStats)
    (skipped : List BenchCaseSkip) (savedImages : List SavedImageRecord) :
    ReportStructure :=
  { taskSections := opts.tasks.map (fun task => (task, taskRows stats task))
    skipped := skipped
    savedImages := savedImages }

/-- The data of both written reports (JSON and Markdown). -/
structure BenchReport where
  tasks : List BenchTaskName
  warmup : ℕ
  iterations : ℕ
  stats : List BenchCaseStats
  skipped : List BenchCaseSkip
  savedImages : List SavedImageRecord
  markdown : ReportStructure
deriving DecidableEq

/-- The whole program after configuration: run the suite; only when it
completes are the JSON and Markdown reports assembled and written.  An
error escaping the orchestrator reaches the top level with no report. -/
def runBenchmark (opts : CliOptions) (renderers : List Renderer)
    (envs : SuiteEnv) : Except RunError BenchReport :=
  match runSuite opts renderers envs with
  | .error e => .error e
  | .ok acc =>
    .ok { tasks := opts.tasks
          warmup := opts.warmup
          iterations := opts.iterations
          stats := acc.stats
          skipped := acc.skipped
          savedImages := acc.savedImages
          markdown := buildReportStructure opts acc.stats acc.skipped acc.savedImages }

/-! ## Helper lemmas: sums, folds, minima and maxima -/

lemma foldl_add_eq_sum (l : List ℚ) : ∀ a : ℚ,
    l.foldl (fun sum value => sum + value) a = a + l.sum := by
  induction l with
  | nil => intro a; simp
  | cons x xs ih => intro a; simp [ih]; ring

lemma mean_eq_sum_div (l : List ℚ) (h : l ≠ []) :
    mean l = l.sum / l.length := by
  have hlen : l.length ≠ 0 := fun hc => h (List.length_eq_zero.mp hc)
  simp [mean, hlen, foldl_add_eq_sum]

lemma foldl_min_le_start (xs : List ℚ) : ∀ a : ℚ, xs.foldl min a ≤ a := by
  induction xs with
  | nil => intro a; simp
  | cons x xs ih =>
    intro a
    calc (x :: xs).foldl min a = xs.foldl min (min a x) := by simp
    _ ≤ min a x := ih (min a x)
    _ ≤ a := min_le_left a x

lemma foldl_min_le_mem (xs : List ℚ) : ∀ a x : ℚ, x ∈ xs → xs.foldl min a ≤ x := by
  induction xs with
  | nil => intro a x hx; cases hx
  | cons y ys ih =>
    intro a x hx
    rcases List.mem_cons.mp hx with h | h
    · rw [h]
      calc (y :: ys).foldl min a = ys.foldl min (min a y) := by simp
      _ ≤ min a y := foldl_min_le_start ys (min a y)
      _ ≤ y := min_le_right a y
    · simpa using ih (min a y) x h

lemma foldl_min_mem (xs : List ℚ) : ∀ a : ℚ,
    xs.foldl min a = a ∨ xs.foldl min a ∈ xs := by
  induction xs with
  | nil => intro a; left; rfl
  | cons x xs ih =>
    intro a
    simp only [List.foldl_cons]
    rcases ih (min a x) with h | h
    · rcases min_choice a x with hc | hc
      · left; rw [h, hc]
      · right; rw [h, hc]; exact List.mem_cons_self x xs
    · right; exact List.mem_cons_of_mem x h

lemma jsMin_le (l : List ℚ) (x : ℚ) (hx : x ∈ l) : jsMin l ≤ x := by
  cases l with
  | nil => cases hx
  | cons y ys =>
    rcases List.mem_cons.mp hx with h | h
    · subst h; exact foldl_min_le_start ys x
    · exact foldl_min_le_mem ys y x h

lemma jsMin_mem (l : List ℚ) (h : l ≠ []) : jsMin l ∈ l := by
  cases l with
  | nil => exact absurd rfl h
  | cons y ys =>
    rcases foldl_min_mem ys y with hc | hc
    · simp [jsMin, hc]
    · right; simpa [jsMin] using hc

lemma foldl_max_ge_start (xs : List ℚ) : ∀ a : ℚ, a ≤ xs.foldl max a := by
  induction xs with
  | nil => intro a; simp
  | cons x xs ih =>
    intro a
    calc a ≤ max a x := le_max_left a x
    _ ≤ xs.foldl max (max a x) := ih (max a x)
    _ = (x :: xs).foldl max a := by simp

lemma foldl_max_ge_mem (xs : List ℚ) : ∀ a x : ℚ, x ∈ xs → x ≤ xs.foldl max a := by
  induction xs with
  | nil => intro a x hx; cases hx
  | cons y ys ih =>
    intro a x hx
    rcases List.mem_cons.mp hx with h | h
    · subst h
      calc x ≤ max a x := le_max_right a x
      _ ≤ ys.foldl max (max a x) := foldl_max_ge_start ys (max a x)
      _ = (x :: ys).foldl max a := by simp
    · simpa using ih (max a y) x h

lemma foldl_max_mem (xs : List ℚ) : ∀ a : ℚ,
    xs.foldl max a = a ∨ xs.foldl max a ∈ xs := by
  induction xs with
  | nil => intro a; left; rfl
  | cons x xs ih =>
    intro a
    simp only [List.foldl_cons]
    rcases ih (max a x) with h | h
    · rcases max_choice a x with hc | hc
      · left; rw [h, hc]
      · right; rw [h, hc]; exact List.mem_cons_self x xs
    · right; exact List.mem_cons_of_mem x h

lemma le_jsMax (l : List ℚ) (x : ℚ) (hx : x ∈ l) : x ≤ jsMax l := by
  cases l with
  | nil => cases hx
  | cons y ys =>
    rcases List.mem_cons.mp hx with h | h
    · subst h; exact foldl_max_ge_start ys x
    · exact foldl_max_ge_mem ys y x h

lemma jsMax_mem (l : List ℚ) (h : l ≠ []) : jsMax l ∈ l := by
  cases l with
  | nil => exact absurd rfl h
  | cons y ys =>
    rcases foldl_max_mem ys y with hc | hc
    · simp [jsMax, hc]
    · right; simpa [jsMax] using hc

lemma length_mul_le_sum (l : List ℚ) (m : ℚ) (h : ∀ x ∈ l, m ≤ x) :
    (l.length : ℚ) * m ≤ l.sum := by
  induction l with
  | nil => simp
  | cons x xs ih =>
    have hx : m ≤ x := h x (List.mem_cons_self x xs)
    have hxs : (xs.length : ℚ) * m ≤ xs.sum := ih (fun y hy => h y (List.mem_cons_of_mem x hy))
    simp only [List.length_cons, List.sum_cons]
    push_cast
    nlinarith

lemma sum_le_length_mul (l : List ℚ) (m : ℚ) (h : ∀ x ∈ l, x ≤ m) :
    l.sum ≤ (l.length : ℚ) * m := by
  induction l with
  | nil => simp
  | cons x xs ih =>
    have hx : x ≤ m := h x (List.mem_cons_self x xs)
    have hxs : xs.sum ≤ (xs.length : ℚ) * m := ih (fun y hy => h y (List.mem_cons_of_mem x hy))
    simp only [List.length_cons, List.sum_cons]
    push_cast
    nlinarith

lemma jsMin_le_mean (l : List ℚ) (h : l ≠ []) : jsMin l ≤ mean l := by
  have hlen : 0 < (l.length : ℚ) := by
    have : 0 < l.length := List.length_pos.mpr h
    exact_mod_cast this
  rw [mean_eq_sum_div l h, le_div_iff₀ hlen]
  have := length_mul_le_sum l (jsMin l) (fun x hx => jsMin_le l x hx)
  linarith

lemma mean_le_jsMax (l : List ℚ) (h : l ≠ []) : mean l ≤ jsMax l := by
  have hlen : 0 < (l.length : ℚ) := by
    have : 0 < l.length := List.length_pos.mpr h
    exact_mod_cast this
  rw [mean_eq_sum_div l h, div_le_iff₀ hlen]
  have := sum_le_length_mul l (jsMax l) (fun x hx => le_jsMax l x hx)
  linarith

/-! ## Helper lemmas: rounding -/

lemma round3_mono {a b : ℚ} (h : a ≤ b) : round3 a ≤ round3 b := by
  unfold round3
  rw [div_eq_mul_inv, div_eq_mul_inv]
  have hf : ((⌊a * 1000 + 1 / 2⌋ : ℤ) : ℚ) ≤ ((⌊b * 1000 + 1 / 2⌋ : ℤ) : ℚ) := by
    exact_mod_cast Int.floor_le_floor (by linarith)
  exact mul_le_mul_of_nonneg_right hf (by norm_num)

lemma round3_zero : round3 0 = 0 := by
  unfold round3
  norm_num

lemma round3_nonneg {a : ℚ} (h : 0 ≤ a) : 0 ≤ round3 a := by
  have := round3_mono h
  rw [round3_zero] at this
  exact this

/-! ## Helper lemmas: sorted lists and `percentile` -/

lemma getD_eq_get (l : List ℚ) (n : ℕ) (d : ℚ) (h : n < l.length) :
    l.getD n d = l.get ⟨n, h⟩ := by
  simp [List.getD_eq_getElem?_getD, List.getElem?_eq_getElem h, List.get_eq_getElem]

lemma clamp_toNat_lt (n : ℕ) (hn : n ≠ 0) (c : ℤ) :
    (min ((n : ℤ) - 1) (max 0 c)).toNat < n := by omega

lemma percentile_eq_sorted_getD (l : List ℚ) (h : l ≠ []) (f : ℚ) :
    percentile l f = (l.insertionSort (· ≤ ·)).getD
      (min ((l.length : ℤ) - 1) (max 0 (⌈(l.length : ℚ) * f⌉ - 1))).toNat 0 := by
  have hlen : l.length ≠ 0 := fun hc => h (List.length_eq_zero.mp hc)
  have hs : (l.insertionSort (· ≤ ·)).length = l.length :=
    (List.perm_insertionSort _ l).length_eq
  simp only [percentile, hlen, if_false, hs]

lemma percentile_mem (l : List ℚ) (h : l ≠ []) (f : ℚ) : percentile l f ∈ l := by
  have hlen : l.length ≠ 0 := fun hc => h (List.length_eq_zero.mp hc)
  rw [percentile_eq_sorted_getD l h f]
  have hperm : (l.insertionSort (· ≤ ·)).Perm l := List.perm_insertionSort _ l
  have hidx : (min ((l.length : ℤ) - 1) (max 0 (⌈(l.length : ℚ) * f⌉ - 1))).toNat <
      (l.insertionSort (· ≤ ·)).length := by
    rw [hperm.length_eq]; exact clamp_toNat_lt _ hlen _
  rw [getD_eq_get _ _ _ hidx]
  exact hperm.mem_iff.mp (List.get_mem _ _ hidx)

lemma sorted_le_last (s : List ℚ) (hs : s.Sorted (· ≤ ·)) (hne : s ≠ [])
    (x : ℚ) (hx : x ∈ s) : x ≤ s.getD (s.length - 1) 0 := by
  have hlen : s.length - 1 < s.length := by
    have : 0 < s.length := List.length_pos.mpr hne
    omega
  obtain ⟨j, hj⟩ := List.mem_iff_get.mp hx
  rw [getD_eq_get s _ _ hlen, ← hj]
  apply List.Sorted.rel_get_of_le hs
  rw [Fin.le_def]
  show (j : ℕ) ≤ s.length - 1
  have := j.isLt
  omega

lemma sorted_first_le (s : List ℚ) (hs : s.Sorted (· ≤ ·)) (hne : s ≠ [])
    (x : ℚ) (hx : x ∈ s) : s.getD 0 0 ≤ x := by
  have hlen : 0 < s.length := List.length_pos.mpr hne
  obtain ⟨j, hj⟩ := List.mem_iff_get.mp hx
  rw [getD_eq_get s _ _ hlen, ← hj]
  apply List.Sorted.rel_get_of_le hs
  rw [Fin.le_def]
  exact Nat.zero_le _

lemma percentile_le_jsMax (l : List ℚ) (h : l ≠ []) (f : ℚ) :
    percentile l f ≤ jsMax l :=
  le_jsMax l _ (percentile_mem l h f)

lemma percentile_one_eq_jsMax (l : List ℚ) (h : l ≠ []) :
    percentile l 1 = jsMax l := by
  have hlen : l.length ≠ 0 := fun hc => h (List.length_eq_zero.mp hc)
  rw [percentile_eq_sorted_getD l h 1]
  have hidx : (min ((l.length : ℤ) - 1) (max 0 (⌈(l.length : ℚ) * 1⌉ - 1))).toNat =
      l.length - 1 := by
    rw [mul_one, Int.ceil_natCast]
    omega
  rw [hidx]
  have hperm : (l.insertionSort (· ≤ ·)).Perm l := List.perm_insertionSort _ l
  have hsl : (l.insertionSort (· ≤ ·)).length = l.length := hperm.length_eq
  have hsne : l.insertionSort (· ≤ ·) ≠ [] := by
    have : 0 < (l.insertionSort (· ≤ ·)).length := by
      rw [hsl]; exact List.length_pos.mpr h
    exact List.length_pos.mp this
  apply le_antisymm
  · have hlt : l.length - 1 < (l.insertionSort (· ≤ ·)).length := by
      rw [hsl]; omega
    have hmem : (l.insertionSort (· ≤ ·)).getD (l.length - 1) 0 ∈
        l.insertionSort (· ≤ ·) := by
      rw [getD_eq_get _ _ _ hlt]; exact List.get_mem _ _ hlt
    exact le_jsMax l _ (hperm.mem_iff.mp hmem)
  · have hmax_s : jsMax l ∈ l.insertionSort (· ≤ ·) :=
      hperm.mem_iff.mpr (jsMax_mem l h)
    have hlast := sorted_le_last (l.insertionSort (· ≤ ·))
      (List.sorted_insertionSort _ l) hsne (jsMax l) hmax_s
    rwa [hsl] at hlast

lemma percentile_zero_eq_jsMin (l : List ℚ) (h : l ≠ []) :
    percentile l 0 = jsMin l := by
  have hlen : l.length ≠ 0 := fun hc => h (List.length_eq_zero.mp hc)
  rw [percentile_eq_sorted_getD l h 0]
  have hidx : (min ((l.length : ℤ) - 1) (max 0 (⌈(l.length : ℚ) * 0⌉ - 1))).toNat = 0 := by
    rw [mul_zero, Int.ceil_zero]
    omega
  rw [hidx]
  have hperm : (l.insertionSort (· ≤ ·)).Perm l := List.perm_insertionSort _ l
  have hsl : (l.insertionSort (· ≤ ·)).length = l.length := hperm.length_eq
  have hsne : l.insertionSort (· ≤ ·) ≠ [] := by
    have : 0 < (l.insertionSort (· ≤ ·)).length := by
      rw [hsl]; exact List.length_pos.mpr h
    exact List.length_pos.mp this
  apply le_antisymm
  · have hmin_s : jsMin l ∈ l.insertionSort (· ≤ ·) :=
      hperm.mem_iff.mpr (jsMin_mem l h)
    exact sorted_first_le (l.insertionSort (· ≤ ·))
      (List.sorted_insertionSort _ l) hsne (jsMin l) hmin_s
  · have hlt : 0 < (l.insertionSort (· ≤ ·)).length := by
      rw [hsl]; omega
    have hmem : (l.insertionSort (· ≤ ·)).getD 0 0 ∈ l.insertionSort (· ≤ ·) := by
      rw [getD_eq_get _ _ _ hlt]; exact List.get_mem _ _ hlt
    exact jsMin_le l _ (hperm.mem_iff.mp hmem)

/-! ## Claim C7 -/

/-- **C7**: `mean([]) = 0`, `mean([a]) = a` for every `a`, and `mean`
returns the same value on any permutation of its input (order
invariance). -/
theorem mean_props :
    mean [] = 0 ∧ (∀ a : ℚ, mean [a] = a) ∧
    ∀ l l' : List ℚ, l.Perm l' → mean l = mean l' := by
  refine ⟨by simp [mean], fun a => by simp [mean], fun l l' hp => ?_⟩
  by_cases h : l = []
  · subst h
    rw [hp.symm.eq_nil]
  · have h' : l' ≠ [] := fun hc => h (by rw [hc] at hp; exact hp.eq_nil)
    rw [mean_eq_sum_div l h, mean_eq_sum_div l' h', hp.sum_eq, hp.length_eq]

/-- Witness for C7 at the concrete permutation `[1, 2] ~ [2, 1]`. -/
theorem mean_props_witness :
    ([1, 2] : List ℚ).Perm [2, 1] ∧ mean [1, 2] = mean [2, 1] :=
  ⟨List.Perm.swap 2 1 [], mean_props.2.2 [1, 2] [2, 1] (List.Perm.swap 2 1 [])⟩

/-! ## Claim C4 -/

/-- **C4**: `percentile(values, fraction)` returns 0 on the empty
sequence; on a non-empty sequence it returns the element of an ascending
sorted copy of the input at index `ceil(length * fraction) - 1` clamped
into `[0, length - 1]` (nearest-rank, no interpolation).  The input list
itself is untouched: the sort acts on a copy (`[...values]`), which the
pure embedding reflects by construction. -/
theorem percentile_nearest_rank (l : List ℚ) (f : ℚ) :
    percentile [] f = 0 ∧
    (l ≠ [] → ∃ s : List ℚ, s.Perm l ∧ s.Sorted (· ≤ ·) ∧
      percentile l f =
        s.getD (min ((l.length : ℤ) - 1) (max 0 (⌈(l.length : ℚ) * f⌉ - 1))).toNat 0) := by
  refine ⟨by simp [percentile], fun h => ?_⟩
  exact ⟨l.insertionSort (· ≤ ·), List.perm_insertionSort _ l,
    List.sorted_insertionSort _ l, percentile_eq_sorted_getD l h f⟩

/-- Witness for C4 at `values = [3, 1, 2]`, `fraction = 1/2`. -/
theorem percentile_nearest_rank_witness :
    (([3, 1, 2] : List ℚ) ≠ []) ∧
    (∃ s : List ℚ, s.Perm [3, 1, 2] ∧ s.Sorted (· ≤ ·) ∧
      percentile [3, 1, 2] (1 / 2) =
        s.getD (min ((([3, 1, 2] : List ℚ).length : ℤ) - 1)
          (max 0 (⌈(([3, 1, 2] : List ℚ).length : ℚ) * (1 / 2)⌉ - 1))).toNat 0) :=
  ⟨by decide, (percentile_nearest_rank [3, 1, 2] (1 / 2)).2 (by decide)⟩

/-! ## Claim C5 -/

/-- **C5**: for every non-empty `xs`, `percentile(xs, 1.0)` is the
maximum element of `xs` and `percentile(xs, 0)` is the smallest element
(the index clamps to 0); `percentile([], f) = 0` for every `f`. -/
theorem percentile_extremes (xs : List ℚ) (f : ℚ) :
    percentile [] f = 0 ∧
    (xs ≠ [] →
      (percentile xs 1 = jsMax xs ∧ (∀ x ∈ xs, x ≤ jsMax xs) ∧ jsMax xs ∈ xs) ∧
      (percentile xs 0 = jsMin xs ∧ (∀ x ∈ xs, jsMin xs ≤ x) ∧ jsMin xs ∈ xs)) := by
  refine ⟨by simp [percentile], fun h => ?_⟩
  exact ⟨⟨percentile_one_eq_jsMax xs h, fun x hx => le_jsMax xs x hx, jsMax_mem xs h⟩,
    ⟨percentile_zero_eq_jsMin xs h, fun x hx => jsMin_le xs x hx, jsMin_mem xs h⟩⟩

/-- Witness for C5 at `xs = [2, 5, 1]`. -/
theorem percentile_extremes_witness :
    (([2, 5, 1] : List ℚ) ≠ []) ∧
    ((percentile [2, 5, 1] 1 = jsMax [2, 5, 1] ∧
      (∀ x ∈ ([2, 5, 1] : List ℚ), x ≤ jsMax [2, 5, 1]) ∧
      jsMax [2, 5, 1] ∈ ([2, 5, 1] : List ℚ)) ∧
     (percentile [2, 5, 1] 0 = jsMin [2, 5, 1] ∧
      (∀ x ∈ ([2, 5, 1] : List ℚ), jsMin [2, 5, 1] ≤ x) ∧
      jsMin [2, 5, 1] ∈ ([2, 5, 1] : List ℚ))) :=
  ⟨by decide, (percentile_extremes [2, 5, 1] 0).2 (by decide)⟩

/-! ## Helper lemmas: the measured loop and `runCase` -/

lemma measuredLoop_ok_times_length (r : Renderer) (task : BenchTaskName)
    (opts : CliOptions) (env : CaseEnv) :
    ∀ (fuel i : ℕ) (st st' : LoopState),
      measuredLoop r task opts env i fuel st = .ok st' →
      st'.times.length = st.times.length + fuel := by
  intro fuel
  induction fuel with
  | zero =>
    intro i st st' h
    simp only [measuredLoop] at h
    cases h
    simp
  | succ fuel ih =>
    intro i st st' h
    simp only [measuredLoop] at h
    cases hrun : r.run task (opts.warmup + i) with
    | ok output =>
      rw [hrun] at h
      have := ih (i + 1) _ st' h
      simp only [measuredStep, List.length_append, List.length_cons,
        List.length_nil] at this
      omega
    | unsupported s => rw [hrun] at h; exact Except.noConfusion h
    | fatal m => rw [hrun] at h; exact Except.noConfusion h

lemma measuredLoop_ok_peaks_mono (r : Renderer) (task : BenchTaskName)
    (opts : CliOptions) (env : CaseEnv) :
    ∀ (fuel i : ℕ) (st st' : LoopState),
      measuredLoop r task opts env i fuel st = .ok st' →
      st.rssPeak ≤ st'.rssPeak ∧ st.heapPeak ≤ st'.heapPeak := by
  intro fuel
  induction fuel with
  | zero =>
    intro i st st' h
    simp only [measuredLoop] at h
    cases h
    exact ⟨le_refl _, le_refl _⟩
  | succ fuel ih =>
    intro i st st' h
    simp only [measuredLoop] at h
    cases hrun : r.run task (opts.warmup + i) with
    | ok output =>
      rw [hrun] at h
      have hrec := ih (i + 1) _ st' h
      simp only [measuredStep] at hrec
      exact ⟨le_trans (le_max_left _ _) hrec.1, le_trans (le_max_left _ _) hrec.2⟩
    | unsupported s => rw [hrun] at h; exact Except.noConfusion h
    | fatal m => rw [hrun] at h; exact Except.noConfusion h

lemma measuredLoop_ok_tags_consistent (r : Renderer) (task : BenchTaskName)
    (opts : CliOptions) (env : CaseEnv) :
    ∀ (fuel i : ℕ) (st st' : LoopState),
      (st.outputUnit = .bytes ↔ st.outputKind = .image) →
      measuredLoop r task opts env i fuel st = .ok st' →
      (st'.outputUnit = .bytes ↔ st'.outputKind = .image) := by
  intro fuel
  induction fuel with
  | zero =>
    intro i st st' hinv h
    simp only [measuredLoop] at h
    cases h
    exact hinv
  | succ fuel ih =>
    intro i st st' hinv h
    simp only [measuredLoop] at h
    cases hrun : r.run task (opts.warmup + i) with
    | ok output =>
      rw [hrun] at h
      apply ih (i + 1) _ st' _ h
      cases output <;> simp [measuredStep, TaskOutput.kind]
    | unsupported s => rw [hrun] at h; exact Except.noConfusion h
    | fatal m => rw [hrun] at h; exact Except.noConfusion h

lemma runCase_ok_decomp (task : BenchTaskName) (r : Renderer)
    (opts : CliOptions) (env : CaseEnv) (out : CaseSuccess)
    (h : runCase task r opts env = .ok out) :
    ∃ st, measuredLoop r task opts env 0 opts.iterations (initState (env.mem 0)) = .ok st ∧
      out = { stats := mkStats task r opts (env.mem 0) (env.mem (opts.iterations + 1)) st
              sample := st.sample } := by
  simp only [runCase] at h
  cases hw : warmupLoop r task 0 opts.warmup with
  | error e => rw [hw] at h; exact Except.noConfusion h
  | ok u =>
    rw [hw] at h
    cases hm : measuredLoop r task opts env 0 opts.iterations (initState (env.mem 0)) with
    | error e => rw [hm] at h; exact Except.noConfusion h
    | ok st =>
      rw [hm] at h
      cases h
      exact ⟨st, rfl, rfl⟩

lemma formatMb_nonneg {b : ℚ} (h : 0 ≤ b) : 0 ≤ formatMb b := by
  unfold formatMb
  positivity

/-! ## Claim C3 -/

/-- **C3**: a case that completes with measured iteration count `N ≥ 1`
records exactly `N` latency entries, and its statistics satisfy
`minMs ≤ avgMs ≤ maxMs` and `p95Ms ≤ maxMs`, all rounded by the same
monotone 3-decimal rounding. -/
theorem runCase_latency_stats (task : BenchTaskName) (r : Renderer)
    (opts : CliOptions) (env : CaseEnv) (out : CaseSuccess)
    (hN : 1 ≤ opts.iterations) (h : runCase task r opts env = .ok out) :
    ∃ st, measuredLoop r task opts env 0 opts.iterations (initState (env.mem 0)) = .ok st ∧
      st.times.length = opts.iterations ∧
      out.stats.avgMs = round3 (mean st.times) ∧
      out.stats.minMs = round3 (jsMin st.times) ∧
      out.stats.maxMs = round3 (jsMax st.times) ∧
      out.stats.p95Ms = round3 (percentile st.times (95 / 100)) ∧
      out.stats.minMs ≤ out.stats.avgMs ∧
      out.stats.avgMs ≤ out.stats.maxMs ∧
      out.stats.p95Ms ≤ out.stats.maxMs := by
  obtain ⟨st, hst, hout⟩ := runCase_ok_decomp task r opts env out h
  have hlen : st.times.length = opts.iterations := by
    have := measuredLoop_ok_times_length r task opts env opts.iterations 0 _ st hst
    simpa [initState] using this
  have hne : st.times ≠ [] := by
    intro hc
    rw [hc] at hlen
    simp at hlen
    omega
  subst hout
  simp only [mkStats]
  refine ⟨st, hst, hlen, rfl, rfl, rfl, rfl, ?_, ?_, ?_⟩
  · exact round3_mono (le_trans (jsMin_le_mean st.times hne) (le_refl _))
  · exact round3_mono (mean_le_jsMax st.times hne)
  · exact round3_mono (percentile_le_jsMax st.times hne (95 / 100))

/-! ## Claim C6 -/

/-- **C6**: the peak-memory deltas of every completed case are
non-negative: each peak is a running maximum initialized to the case's
own baseline, so peak − baseline ≥ 0, and the monotone rounding and the
megabyte conversion preserve the sign. -/
theorem runCase_peak_deltas_nonneg (task : BenchTaskName) (r : Renderer)
    (opts : CliOptions) (env : CaseEnv) (out : CaseSuccess)
    (h : runCase task r opts env = .ok out) :
    0 ≤ out.stats.rssPeakDeltaMb ∧ 0 ≤ out.stats.heapPeakDeltaMb := by
  obtain ⟨st, hst, hout⟩ := runCase_ok_decomp task r opts env out h
  have hmono := measuredLoop_ok_peaks_mono r task opts env opts.iterations 0 _ st hst
  simp only [initState] at hmono
  subst hout
  simp only [mkStats]
  constructor
  · exact round3_nonneg (formatMb_nonneg (by linarith [hmono.1]))
  · exact round3_nonneg (formatMb_nonneg (by linarith [hmono.2]))

/-! ## Claim C10 -/

/-- **C10**: in every statistics record of a completed case the output
unit tag matches the output kind: `outputUnit = bytes ↔ outputKind =
image` and `outputUnit = value ↔ outputKind = metric` (both are assigned
together from the same result on each iteration, and the initial
`metric`/`value` pair is consistent). -/
theorem runCase_output_tags_consistent (task : BenchTaskName) (r : Renderer)
    (opts : CliOptions) (env : CaseEnv) (out : CaseSuccess)
    (h : runCase task r opts env = .ok out) :
    (out.stats.outputUnit = .bytes ↔ out.stats.outputKind = .image) ∧
    (out.stats.outputUnit = .value ↔ out.stats.outputKind = .metric) := by
  obtain ⟨st, hst, hout⟩ := runCase_ok_decomp task r opts env out h
  have hinv : st.outputUnit = .bytes ↔ st.outputKind = .image := by
    apply measuredLoop_ok_tags_consistent r task opts env opts.iterations 0 _ st _ hst
    simp [initState]
  subst hout
  simp only [mkStats]
  constructor
  · exact hinv
  · cases hu : st.outputUnit <;> cases hk : st.outputKind <;>
      simp [hu, hk] at hinv ⊢

/-! ## Concrete data for the case-runner witnesses -/

/-- A renderer that returns `Metric 100` on every call (the end-to-end
scenario of the spec). -/
def wRenderer : Renderer :=
  { name := "fake", prepare := .ok (), run := fun _ _ => .ok (.metric 100) }

/-- A deterministic clock/memory oracle for the witnesses. -/
def wEnv : CaseEnv :=
  { clock := fun n => n, mem := fun _ => ⟨0, 0⟩ }

/-- The witness configuration: workload `text-layout`, warmup 2,
iterations 5. -/
def wOpts : CliOptions :=
  { tasks := [.textLayout], iterations := 5, warmup := 2, saveImages := false }

/-- Extract the success value of a case outcome (default for the error
branch, never taken in the witnesses). -/
def exOkCase : Except RunError CaseSuccess → CaseSuccess
  | .ok v => v
  | .error _ =>
    { stats := mkStats .textLayout wRenderer wOpts ⟨0, 0⟩ ⟨0, 0⟩ (initState ⟨0, 0⟩)
      sample := none }

/-- The concrete successful outcome of the witness case. -/
def wOut : CaseSuccess := exOkCase (runCase .textLayout wRenderer wOpts wEnv)

/-- Witness for C3 at the concrete case (`text-layout`, `wRenderer`,
warmup 2, iterations 5). -/
theorem runCase_latency_stats_witness :
    1 ≤ wOpts.iterations ∧
    (∃ st, measuredLoop wRenderer .textLayout wOpts wEnv 0 wOpts.iterations
        (initState (wEnv.mem 0)) = .ok st ∧
      st.times.length = wOpts.iterations ∧
      wOut.stats.avgMs = round3 (mean st.times) ∧
      wOut.stats.minMs = round3 (jsMin st.times) ∧
      wOut.stats.maxMs = round3 (jsMax st.times) ∧
      wOut.stats.p95Ms = round3 (percentile st.times (95 / 100)) ∧
      wOut.stats.minMs ≤ wOut.stats.avgMs ∧
      wOut.stats.avgMs ≤ wOut.stats.maxMs ∧
      wOut.stats.p95Ms ≤ wOut.stats.maxMs) :=
  ⟨by decide, runCase_latency_stats .textLayout wRenderer wOpts wEnv wOut (by decide) rfl⟩

/-- Witness for C6 at the same concrete case. -/
theorem runCase_peak_deltas_nonneg_witness :
    runCase .textLayout wRenderer wOpts wEnv = .ok wOut ∧
    (0 ≤ wOut.stats.rssPeakDeltaMb ∧ 0 ≤ wOut.stats.heapPeakDeltaMb) :=
  ⟨rfl, runCase_peak_deltas_nonneg .textLayout wRenderer wOpts wEnv wOut rfl⟩

/-- Witness for C10 at the same concrete case. -/
theorem runCase_output_tags_consistent_witness :
    runCase .textLayout wRenderer wOpts wEnv = .ok wOut ∧
    ((wOut.stats.outputUnit = .bytes ↔ wOut.stats.outputKind = .image) ∧
     (wOut.stats.outputUnit = .value ↔ wOut.stats.outputKind = .metric)) :=
  ⟨rfl, runCase_output_tags_consistent .textLayout wRenderer wOpts wEnv wOut rfl⟩

/-! ## Claim C9 -/

/-- **C9**: the report assembler produces one section per requested
workload (in request order); the rows of each section are exactly the
accumulated statistics of that workload, ordered ascending by average
latency; the skip records and saved-sample records are carried in their
own separate sections, untouched. -/
theorem report_grouping_sorted (opts : CliOptions) (stats : List BenchCaseStats)
    (skipped : List BenchCaseSkip) (savedImages : List SavedImageRecord) :
    ((buildReportStructure opts stats skipped savedImages).taskSections.map
        Prod.fst = opts.tasks) ∧
    (∀ sec ∈ (buildReportStructure opts stats skipped savedImages).taskSections,
      sec.2.Perm (stats.filter (fun entry => entry.task = sec.1)) ∧
      sec.2.Sorted statLE) ∧
    (buildReportStructure opts stats skipped savedImages).skipped = skipped ∧
    (buildReportStructure opts stats skipped savedImages).savedImages = savedImages := by
  refine ⟨by simp [buildReportStructure, Function.comp_def], ?_, rfl, rfl⟩
  intro sec hsec
  simp only [buildReportStructure, List.mem_map] at hsec
  obtain ⟨t, _, rfl⟩ := hsec
  exact ⟨List.perm_insertionSort _ _, List.sorted_insertionSort _ _⟩

/-- A statistics record with the given renderer, task and average latency
(all other aggregates zero), for the report-assembler witness. -/
def wStat (renderer : String) (task : BenchTaskName) (avg : ℚ) : BenchCaseStats :=
  { renderer := renderer, task := task, iterations := 1, warmup := 1
    avgMs := avg, p95Ms := 0, minMs := 0, maxMs := 0
    rssPeakDeltaMb := 0, heapPeakDeltaMb := 0, heapEndDeltaMb := 0
    outputKind := .metric, outputAverage := 0, outputUnit := .value }

/-- The statistics list of the report witness: two `text-layout` entries
out of latency order and one `encode-png` entry. -/
def wReportStats : List BenchCaseStats :=
  [wStat "b" .textLayout 2, wStat "a" .textLayout 1, wStat "c" .encodePng 3]

/-- The options of the report witness. -/
def wReportOpts : CliOptions :=
  { tasks := [.textLayout, .encodePng], iterations := 1, warmup := 1
    saveImages := false }

/-- Witness for C9: the `text-layout` section of the concrete report. -/
theorem report_grouping_sorted_witness :
    ((.textLayout, taskRows wReportStats .textLayout) ∈
      (buildReportStructure wReportOpts wReportStats [] []).taskSections) ∧
    ((taskRows wReportStats .textLayout).Perm
        (wReportStats.filter (fun entry => entry.task = BenchTaskName.textLayout)) ∧
      (taskRows wReportStats .textLayout).Sorted statLE) :=
  ⟨by decide,
   (report_grouping_sorted wReportOpts wReportStats [] []).2.1
     (.textLayout, taskRows wReportStats .textLayout) (by decide)⟩

/-! ## Claim C8 -/


lemma invalid_pred_iff (s : String) :
    ((!((ALL_TASKS.map taskName).contains s)) = true) ↔ s ∉ ALL_TASKS.map taskName := by
  simp

/-- **C8**: configuration validation (which runs before any case)
rejects every requested workload name outside the closed task
enumeration and every explicitly supplied warmup / iteration count that
does not parse to a positive integer; a non-empty request of known names
is accepted, and a count parsing to a positive integer is accepted. -/
theorem config_validation (items : List String) (v : String) (fb : ℕ) (n : ℤ) :
    ((∃ s ∈ requestedNames items, s ∉ ALL_TASKS.map taskName) →
      ∃ e, parseTasks (some items) = .error e) ∧
    ((jsParseInt v = none ∨ (jsParseInt v = some n ∧ n ≤ 0)) →
      ∃ e, parseInteger (some v) fb = .error e) ∧
    ((requestedNames items ≠ [] ∧
        ∀ s ∈ requestedNames items, s ∈ ALL_TASKS.map taskName) →
      ∃ ts, parseTasks (some items) = .ok ts) ∧
    ((jsParseInt v = some n ∧ 0 < n) → parseInteger (some v) fb = .ok n) := by
  refine ⟨?_, ?_, ?_, ?_⟩
  · rintro ⟨s, hs, hnot⟩
    have hne : (requestedNames items).length ≠ 0 := by
      have : 0 < (requestedNames items).length :=
        List.length_pos.mpr (List.ne_nil_of_mem hs)
      omega
    have hmem : s ∈ (requestedNames items).filter
        (fun item => !((ALL_TASKS.map taskName).contains item)) :=
      List.mem_filter.mpr ⟨hs, (invalid_pred_iff s).mpr hnot⟩
    have hinv : ((requestedNames items).filter
        (fun item => !((ALL_TASKS.map taskName).contains item))).length ≠ 0 := by
      have : 0 < ((requestedNames items).filter
          (fun item => !((ALL_TASKS.map taskName).contains item))).length :=
        List.length_pos.mpr (List.ne_nil_of_mem hmem)
      omega
    refine ⟨"Unknown workloads", ?_⟩
    simp only [parseTasks]
    rw [if_neg hne, if_pos hinv]
  · rintro (hnone | ⟨hsome, hle⟩)
    · exact ⟨"must be a positive integer", by simp [parseInteger, hnone]⟩
    · exact ⟨"must be a positive integer", by simp [parseInteger, hsome, if_pos hle]⟩
  · rintro ⟨hne, hall⟩
    have hlen : (requestedNames items).length ≠ 0 := by
      have : 0 < (requestedNames items).length := List.length_pos.mpr hne
      omega
    have hinv : ((requestedNames items).filter
        (fun item => !((ALL_TASKS.map taskName).contains item))).length = 0 := by
      rw [List.length_eq_zero, List.filter_eq_nil_iff]
      intro s hs
      simp only [Bool.not_eq_true, Bool.not_eq_false]
      simpa using hall s hs
    refine ⟨(requestedNames items).filterMap taskOfName, ?_⟩
    simp only [parseTasks]
    rw [if_neg hlen, if_neg (by omega)]
  · rintro ⟨hsome, hpos⟩
    simp [parseInteger, hsome, if_neg (by omega : ¬n ≤ 0)]

/-- Witness for C8: `"bogus"` is rejected, `"0"` is rejected as a count,
`"text-layout"` and `"12"` are accepted. -/
theorem config_validation_witness :
    (∃ s ∈ requestedNames ["text-layout", "bogus"], s ∉ ALL_TASKS.map taskName) ∧
    (∃ e, parseTasks (some ["text-layout", "bogus"]) = .error e) ∧
    (jsParseInt "0" = some 0 ∧ (0 : ℤ) ≤ 0) ∧
    (∃ e, parseInteger (some "0") 3 = .error e) ∧
    (requestedNames ["text-layout"] ≠ [] ∧
      ∀ s ∈ requestedNames ["text-layout"], s ∈ ALL_TASKS.map taskName) ∧
    (∃ ts, parseTasks (some ["text-layout"]) = .ok ts) ∧
    (jsParseInt "12" = some 12 ∧ (0 : ℤ) < 12) ∧
    parseInteger (some "12") 3 = .ok 12 :=
  ⟨by decide,
   (config_validation ["text-layout", "bogus"] "0" 3 0).1 (by decide),
   by decide,
   (config_validation ["text-layout", "bogus"] "0" 3 0).2.1 (Or.inr (by decide)),
   by decide,
   (config_validation ["text-layout"] "0" 3 0).2.2.1 (by decide),
   by decide,
   (config_validation ["text-layout"] "12" 3 12).2.2.2 (by decide)⟩

/-! ## Helper definitions and lemmas: orchestrator characterization -/

/-- The statistics record a case contributes, when it succeeds. -/
def statOf (opts : CliOptions) (envs : SuiteEnv)
    (p : BenchTaskName × Renderer) : Option BenchCaseStats :=
  match caseOutcome opts envs p with
  | .ok out => some out.stats
  | .error _ => none

/-- The skip record a case contributes, when it is unsupported. -/
def skipRecOf (opts : CliOptions) (envs : SuiteEnv)
    (p : BenchTaskName × Renderer) : Option BenchCaseSkip :=
  match caseOutcome opts envs p with
  | .error (.unsupported reason) =>
    some { renderer := p.2.name, task := p.1, reason := reason }
  | _ => none

/-- The saved-image record a case contributes, when it succeeds with a
captured sample and image saving is on. -/
def savedOf (opts : CliOptions) (envs : SuiteEnv)
    (p : BenchTaskName × Renderer) : Option SavedImageRecord :=
  match caseOutcome opts envs p with
  | .ok out => savedRecOf opts p out
  | .error _ => none

lemma suiteFold_ok_of_no_fatal (opts : CliOptions) (envs : SuiteEnv) :
    ∀ (pairs : List (BenchTaskName × Renderer)) (acc : SuiteAccum),
      (∀ p ∈ pairs, isFatal (caseOutcome opts envs p) = false) →
      suiteFold opts envs pairs acc = .ok
        { stats := acc.stats ++ pairs.filterMap (statOf opts envs)
          skipped := acc.skipped ++ pairs.filterMap (skipRecOf opts envs)
          savedImages := acc.savedImages ++ pairs.filterMap (savedOf opts envs) } := by
  intro pairs
  induction pairs with
  | nil => intro acc _; simp [suiteFold]
  | cons p rest ih =>
    intro acc h
    have hp : isFatal (caseOutcome opts envs p) = false :=
      h p (List.mem_cons_self p rest)
    have hrest : ∀ q ∈ rest, isFatal (caseOutcome opts envs q) = false :=
      fun q hq => h q (List.mem_cons_of_mem p hq)
    cases hc : caseOutcome opts envs p with
    | ok out =>
      simp only [suiteFold, caseStep, hc]
      rw [ih _ hrest]
      cases hsv : savedRecOf opts p out with
      | none => simp [statOf, skipRecOf, savedOf, hc, hsv, List.filterMap_cons]
      | some srec => simp [statOf, skipRecOf, savedOf, hc, hsv, List.filterMap_cons]
    | error e =>
      cases e with
      | unsupported reason =>
        simp only [suiteFold, caseStep, hc]
        rw [ih _ hrest]
        simp [statOf, skipRecOf, savedOf, hc]
      | fatal m =>
        rw [hc] at hp
        simp [isFatal] at hp

lemma prepareAll_ok (renderers : List Renderer)
    (h : ∀ r ∈ renderers, r.prepare = .ok ()) : prepareAll renderers = .ok () := by
  induction renderers with
  | nil => rfl
  | cons r rest ih =>
    simp only [prepareAll, h r (List.mem_cons_self r rest)]
    exact ih (fun q hq => h q (List.mem_cons_of_mem r hq))

lemma runSuite_ok_of_no_fatal (opts : CliOptions) (renderers : List Renderer)
    (envs : SuiteEnv)
    (hprep : ∀ r ∈ renderers, r.prepare = .ok ())
    (h : ∀ p ∈ suitePairs opts renderers, isFatal (caseOutcome opts envs p) = false) :
    runSuite opts renderers envs = .ok
      { stats := (suitePairs opts renderers).filterMap (statOf opts envs)
        skipped := (suitePairs opts renderers).filterMap (skipRecOf opts envs)
        savedImages := (suitePairs opts renderers).filterMap (savedOf opts envs) } := by
  simp only [runSuite, prepareAll_ok renderers hprep]
  have := suiteFold_ok_of_no_fatal opts envs (suitePairs opts renderers) emptyAccum h
  simpa [emptyAccum] using this

lemma countP_filterMap_eq {α β : Type} (f : α → Option β) (q : β → Bool) :
    ∀ l : List α, (l.filterMap f).countP q =
      l.countP (fun a => ((f a).map q).getD false) := by
  intro l
  induction l with
  | nil => simp
  | cons a rest ih =>
    cases hf : f a with
    | none => simp [List.filterMap_cons, hf, List.countP_cons, ih]
    | some b => simp [List.filterMap_cons, hf, List.countP_cons, ih]

lemma countP_eq_of_unique_key {α : Type} (key : α → String) :
    ∀ (l : List α), (l.map key).Nodup → ∀ a ∈ l, ∀ f : α → Bool,
      l.countP (fun x => decide (key x = key a) && f x) = if f a then 1 else 0 := by
  intro l
  induction l with
  | nil => intro _ a ha; cases ha
  | cons b rest ih =>
    intro hnd a ha f
    have hnd' := List.nodup_cons.mp hnd
    rcases List.mem_cons.mp ha with rfl | ha'
    · have hzero : rest.countP (fun x => decide (key x = key a) && f x) = 0 := by
        rw [List.countP_eq_zero]
        intro x hx hpx
        have hkey : key x = key a := by
          have hand := (Bool.and_eq_true _ _).mp hpx
          exact of_decide_eq_true hand.1
        exact hnd'.1 (hkey ▸ List.mem_map_of_mem key hx)
      simp [List.countP_cons, hzero]
    · have hb : (decide (key b = key a) && f b) = false := by
        have hne : key b ≠ key a := by
          intro hc
          exact hnd'.1 (hc ▸ List.mem_map_of_mem key ha')
        simp [hne]
      rw [List.countP_cons, hb]
      simp [ih hnd'.2 a ha' f]

lemma mem_suitePairs (opts : CliOptions) (renderers : List Renderer)
    (p : BenchTaskName × Renderer) :
    p ∈ suitePairs opts renderers ↔ p.1 ∈ opts.tasks ∧ p.2 ∈ renderers := by
  cases p with
  | mk t r =>
    simp only [suitePairs, List.mem_flatMap, List.mem_map, Prod.mk.injEq]
    constructor
    · rintro ⟨t', ht', r', hr', rfl, rfl⟩
      exact ⟨ht', hr'⟩
    · rintro ⟨ht, hr⟩
      exact ⟨t, ht, r, hr, rfl, rfl⟩

lemma suite_countP (renderers : List Renderer) (g : BenchTaskName × Renderer → Bool)
    (t0 : BenchTaskName)
    (h0 : ∀ t, t ≠ t0 → ∀ r ∈ renderers, g (t, r) = false) :
    ∀ tasks : List BenchTaskName, tasks.count t0 = 1 →
      (tasks.flatMap (fun t => renderers.map (fun r => (t, r)))).countP g =
        renderers.countP (fun r => g (t0, r)) := by
  intro tasks
  induction tasks with
  | nil => intro hcount; simp at hcount
  | cons t rest ih =>
    intro hcount
    rw [List.flatMap_cons, List.countP_append, List.countP_map]
    by_cases ht : t = t0
    · subst ht
      have hrest : rest.count t = 0 := by
        have := List.count_cons_self t rest
        omega
      have hnot : t ∉ rest := List.count_eq_zero.mp hrest
      have hzero : (rest.flatMap (fun t' => renderers.map (fun r => (t', r)))).countP g = 0 := by
        rw [List.countP_eq_zero]
        intro p hp
        obtain ⟨t', ht', hp'⟩ := List.mem_flatMap.mp hp
        obtain ⟨r, hr, rfl⟩ := List.mem_map.mp hp'
        have hne : t' ≠ t := fun hc => hnot (hc ▸ ht')
        simp [h0 t' hne r hr]
      rw [hzero]
      simp [Function.comp_def]
    · have hrest : rest.count t0 = 1 := by
        rw [List.count_cons_of_ne (fun hc => ht hc.symm)] at hcount
        exact hcount
      have hzero : renderers.countP ((g ∘ fun r => (t, r))) = 0 := by
        rw [List.countP_eq_zero]
        intro r hr
        simp [Function.comp_def, h0 t ht r hr]
      rw [hzero, ih hrest]
      omega

lemma filterMap_outcome_lengths (opts : CliOptions) (envs : SuiteEnv) :
    ∀ pairs : List (BenchTaskName × Renderer),
      (∀ p ∈ pairs, isFatal (caseOutcome opts envs p) = false) →
      (pairs.filterMap (statOf opts envs)).length +
        (pairs.filterMap (skipRecOf opts envs)).length = pairs.length := by
  intro pairs
  induction pairs with
  | nil => intro _; simp
  | cons p rest ih =>
    intro h
    have hp : isFatal (caseOutcome opts envs p) = false :=
      h p (List.mem_cons_self p rest)
    have hrest := ih (fun q hq => h q (List.mem_cons_of_mem p hq))
    cases hc : caseOutcome opts envs p with
    | ok out =>
      simp only [List.filterMap_cons, statOf, skipRecOf, hc]
      simp only [List.length_cons]
      omega
    | error e =>
      cases e with
      | unsupported reason =>
        simp only [List.filterMap_cons, statOf, skipRecOf, hc]
        simp only [List.length_cons]
        omega
      | fatal m =>
        rw [hc] at hp
        simp [isFatal] at hp

lemma runCase_unsupported_of_always (task : BenchTaskName) (r : Renderer)
    (opts : CliOptions) (env : CaseEnv) (hw : 1 ≤ opts.warmup)
    (hall : ∀ k, ∃ s, r.run task k = .unsupported s) :
    ∃ s, runCase task r opts env = .error (.unsupported s) := by
  obtain ⟨s, hs⟩ := hall 0
  refine ⟨s, ?_⟩
  obtain ⟨w, hw'⟩ : ∃ w, opts.warmup = w + 1 := ⟨opts.warmup - 1, by omega⟩
  simp only [runCase, hw', warmupLoop, hs]

lemma statOf_fields (opts : CliOptions) (envs : SuiteEnv)
    (p : BenchTaskName × Renderer) (st : BenchCaseStats)
    (h : statOf opts envs p = some st) :
    st.renderer = p.2.name ∧ st.task = p.1 := by
  simp only [statOf] at h
  cases hc : caseOutcome opts envs p with
  | ok out =>
    rw [hc] at h
    cases h
    obtain ⟨st', _, hout⟩ :=
      runCase_ok_decomp p.1 p.2 opts (envs p.1 p.2.name) out hc
    rw [hout]
    exact ⟨rfl, rfl⟩
  | error e =>
    rw [hc] at h
    cases h

/-! ## Claim C1 -/

/-- **C1**: if one backend's `run` raises the dedicated
`UnsupportedTaskError` on every call for one (backend, workload) pair —
and nothing else in the suite fails fatally — the orchestrator records
exactly one `SkipRecord` and zero `CaseStatistics` entries for that pair,
and still executes every other pair: the suite completes and every pair
contributes exactly one record (a statistics entry or a skip record). -/
theorem suite_unsupported_single_skip
    (opts : CliOptions) (renderers : List Renderer) (envs : SuiteEnv)
    (t0 : BenchTaskName) (r0 : Renderer)
    (hmem : r0 ∈ renderers)
    (hnames : (renderers.map Renderer.name).Nodup)
    (htask : opts.tasks.count t0 = 1)
    (hwarm : 1 ≤ opts.warmup)
    (hprep : ∀ r ∈ renderers, r.prepare = .ok ())
    (hunsup : ∀ k, ∃ s, r0.run t0 k = .unsupported s)
    (hother : ∀ p ∈ suitePairs opts renderers,
      ¬(p.1 = t0 ∧ p.2.name = r0.name) →
      isFatal (caseOutcome opts envs p) = false) :
    ∃ acc, runSuite opts renderers envs = .ok acc ∧
      acc.skipped.countP
        (fun sk => decide (sk.renderer = r0.name) && decide (sk.task = t0)) = 1 ∧
      acc.stats.countP
        (fun st => decide (st.renderer = r0.name) && decide (st.task = t0)) = 0 ∧
      acc.stats.length + acc.skipped.length = (suitePairs opts renderers).length := by
  have hinj : ∀ r ∈ renderers, r.name = r0.name → r = r0 := by
    intro r hr hname
    exact List.inj_on_of_nodup_map hnames hr hmem hname
  obtain ⟨s0, hs0⟩ :=
    runCase_unsupported_of_always t0 r0 opts (envs t0 r0.name) hwarm hunsup
  have hc0 : caseOutcome opts envs (t0, r0) = .error (.unsupported s0) := hs0
  have hnofatal : ∀ p ∈ suitePairs opts renderers,
      isFatal (caseOutcome opts envs p) = false := by
    intro p hp
    by_cases hmatch : p.1 = t0 ∧ p.2.name = r0.name
    · have hr : p.2 ∈ renderers := ((mem_suitePairs opts renderers p).mp hp).2
      have hpr : p.2 = r0 := hinj p.2 hr hmatch.2
      have hpeq : p = (t0, r0) := by
        cases p with
        | mk a b => simp only [Prod.mk.injEq]; exact ⟨hmatch.1, hpr⟩
      rw [hpeq, hc0]
      rfl
    · exact hother p hp hmatch
  refine ⟨_, runSuite_ok_of_no_fatal opts renderers envs hprep hnofatal, ?_, ?_, ?_⟩
  · -- exactly one skip record for the pair
    rw [countP_filterMap_eq]
    have hswap : ((suitePairs opts renderers).countP fun p =>
        ((skipRecOf opts envs p).map
          (fun sk => decide (sk.renderer = r0.name) && decide (sk.task = t0))).getD false) =
        renderers.countP (fun r =>
          ((skipRecOf opts envs (t0, r)).map
            (fun sk => decide (sk.renderer = r0.name) && decide (sk.task = t0))).getD false) := by
      simp only [suitePairs]
      apply suite_countP renderers _ t0 _ opts.tasks htask
      intro t ht r _
      cases hc : caseOutcome opts envs (t, r) with
      | ok out => simp [skipRecOf, hc]
      | error e =>
        cases e with
        | unsupported reason => simp [skipRecOf, hc, ht]
        | fatal m => simp [skipRecOf, hc]
    rw [hswap]
    have hfun : (fun r => ((skipRecOf opts envs (t0, r)).map
          (fun sk => decide (sk.renderer = r0.name) && decide (sk.task = t0))).getD false) =
        (fun r => decide (r.name = r0.name) &&
          (match caseOutcome opts envs (t0, r) with
           | .error (.unsupported _) => true
           | _ => false)) := by
      funext r
      cases hc : caseOutcome opts envs (t0, r) with
      | ok out => simp [skipRecOf, hc]
      | error e =>
        cases e with
        | unsupported reason => simp [skipRecOf, hc]
        | fatal m => simp [skipRecOf, hc]
    rw [hfun]
    rw [countP_eq_of_unique_key Renderer.name renderers hnames r0 hmem]
    rw [hc0]
    rfl
  · -- zero statistics entries for the pair
    rw [countP_filterMap_eq]
    have hswap : ((suitePairs opts renderers).countP fun p =>
        ((statOf opts envs p).map
          (fun st => decide (st.renderer = r0.name) && decide (st.task = t0))).getD false) =
        renderers.countP (fun r =>
          ((statOf opts envs (t0, r)).map
            (fun st => decide (st.renderer = r0.name) && decide (st.task = t0))).getD false) := by
      simp only [suitePairs]
      apply suite_countP renderers _ t0 _ opts.tasks htask
      intro t ht r _
      cases hc : statOf opts envs (t, r) with
      | none => simp [hc]
      | some st =>
        have hf := statOf_fields opts envs (t, r) st hc
        simp [hc, hf.2, ht]
    rw [hswap]
    have hfun : (fun r => ((statOf opts envs (t0, r)).map
          (fun st => decide (st.renderer = r0.name) && decide (st.task = t0))).getD false) =
        (fun r => decide (r.name = r0.name) && (statOf opts envs (t0, r)).isSome) := by
      funext r
      cases hc : statOf opts envs (t0, r) with
      | none => simp [hc]
      | some st =>
        have hf := statOf_fields opts envs (t0, r) st hc
        simp [hc, hf.1, hf.2]
    rw [hfun]
    rw [countP_eq_of_unique_key Renderer.name renderers hnames r0 hmem]
    have : statOf opts envs (t0, r0) = none := by
      simp only [statOf, hc0]
    rw [this]
    rfl
  · exact filterMap_outcome_lengths opts envs (suitePairs opts renderers) hnofatal

/-- A renderer that declares `encode-svg` structurally unsupported and
succeeds on every other workload (mirrors the `@napi-rs/canvas` SVG
branch). -/
def uRenderer : Renderer :=
  { name := "skipper"
    prepare := .ok ()
    run := fun t _ =>
      match t with
      | .encodeSvg => .unsupported "no svg"
      | _ => .ok (.metric 1) }

/-- The two-renderer suite of the orchestrator witnesses. -/
def wSuiteRenderers : List Renderer := [wRenderer, uRenderer]

/-- The options of the orchestrator witnesses: two workloads, warmup 1,
iterations 1. -/
def wSuiteOpts : CliOptions :=
  { tasks := [.textLayout, .encodeSvg], iterations := 1, warmup := 1
    saveImages := false }

/-- Identical oracle environments for every case of the witnesses. -/
def wSuiteEnvs : SuiteEnv := fun _ _ => wEnv

/-- Witness for C1: `uRenderer` cannot encode SVG, everything else runs;
the suite completes with one skip record and no statistics for the pair. -/
theorem suite_unsupported_single_skip_witness :
    (∀ k, ∃ s, uRenderer.run .encodeSvg k = .unsupported s) ∧
    wSuiteOpts.tasks.count .encodeSvg = 1 ∧
    (∃ acc, runSuite wSuiteOpts wSuiteRenderers wSuiteEnvs = .ok acc ∧
      acc.skipped.countP
        (fun sk => decide (sk.renderer = uRenderer.name) &&
          decide (sk.task = BenchTaskName.encodeSvg)) = 1 ∧
      acc.stats.countP
        (fun st => decide (st.renderer = uRenderer.name) &&
          decide (st.task = BenchTaskName.encodeSvg)) = 0 ∧
      acc.stats.length + acc.skipped.length =
        (suitePairs wSuiteOpts wSuiteRenderers).length) :=
  ⟨fun _ => ⟨"no svg", rfl⟩, by decide,
   suite_unsupported_single_skip wSuiteOpts wSuiteRenderers wSuiteEnvs
     .encodeSvg uRenderer
     (List.mem_cons_of_mem wRenderer (List.mem_cons_self uRenderer []))
     (by decide) (by decide) (by decide)
     (by
       intro r hr
       rcases List.mem_cons.mp hr with rfl | hr
       · rfl
       rcases List.mem_cons.mp hr with rfl | hr
       · rfl
       cases hr)
     (fun _ => ⟨"no svg", rfl⟩)
     (by decide)⟩

/-! ## Claim C2 -/

lemma suiteFold_fatal (opts : CliOptions) (envs : SuiteEnv) :
    ∀ (before : List (BenchTaskName × Renderer)) (p : BenchTaskName × Renderer)
      (after : List (BenchTaskName × Renderer)) (acc : SuiteAccum) (msg : String),
      (∀ q ∈ before, isFatal (caseOutcome opts envs q) = false) →
      caseOutcome opts envs p = .error (.fatal msg) →
      suiteFold opts envs (before ++ p :: after) acc = .error (.fatal msg) := by
  intro before
  induction before with
  | nil =>
    intro p after acc msg _ hp
    simp only [List.nil_append, suiteFold, caseStep, hp]
  | cons q rest ih =>
    intro p after acc msg hb hp
    have hq : isFatal (caseOutcome opts envs q) = false :=
      hb q (List.mem_cons_self q rest)
    have hrest : ∀ x ∈ rest, isFatal (caseOutcome opts envs x) = false :=
      fun x hx => hb x (List.mem_cons_of_mem q hx)
    cases hc : caseOutcome opts envs q with
    | ok out =>
      simp only [List.cons_append, suiteFold, caseStep, hc]
      exact ih p after _ msg hrest hp
    | error e =>
      cases e with
      | unsupported reason =>
        simp only [List.cons_append, suiteFold, caseStep, hc]
        exact ih p after _ msg hrest hp
      | fatal m =>
        rw [hc] at hq
        simp [isFatal] at hq

lemma prepareAll_error (e : RunError) :
    ∀ (rs1 : List Renderer) (r : Renderer) (rs2 : List Renderer),
      (∀ q ∈ rs1, q.prepare = .ok ()) → r.prepare = .error e →
      prepareAll (rs1 ++ r :: rs2) = .error e := by
  intro rs1
  induction rs1 with
  | nil =>
    intro r rs2 _ hr
    simp only [List.nil_append, prepareAll, hr]
  | cons q rest ih =>
    intro r rs2 hq hr
    simp only [List.cons_append, prepareAll, hq q (List.mem_cons_self q rest)]
    exact ih r rs2 (fun x hx => hq x (List.mem_cons_of_mem q hx)) hr

/-- **C2**: a non-`UnsupportedTaskError` error escaping a case's `run`
(first conjunct) or any error escaping a renderer's `prepare` (second
conjunct; `prepare` runs outside the try/catch) propagates out of the
orchestrator: the whole run results in exactly that error — independently
of every case after the failing one — so no statistics, skip record or
report of any kind is produced. -/
theorem suite_fatal_aborts :
    (∀ (opts : CliOptions) (renderers : List Renderer) (envs : SuiteEnv)
        (before : List (BenchTaskName × Renderer)) (p : BenchTaskName × Renderer)
        (after : List (BenchTaskName × Renderer)) (msg : String),
      suitePairs opts renderers = before ++ p :: after →
      (∀ r ∈ renderers, r.prepare = .ok ()) →
      (∀ q ∈ before, isFatal (caseOutcome opts envs q) = false) →
      caseOutcome opts envs p = .error (.fatal msg) →
      runBenchmark opts renderers envs = .error (.fatal msg)) ∧
    (∀ (opts : CliOptions) (renderers : List Renderer) (envs : SuiteEnv)
        (rs1 : List Renderer) (r : Renderer) (rs2 : List Renderer) (e : RunError),
      renderers = rs1 ++ r :: rs2 →
      (∀ q ∈ rs1, q.prepare = .ok ()) →
      r.prepare = .error e →
      runBenchmark opts renderers envs = .error e) := by
  constructor
  · intro opts renderers envs before p after msg hpairs hprep hb hp
    have hfold := suiteFold_fatal opts envs before p after emptyAccum msg hb hp
    simp only [runBenchmark, runSuite, prepareAll_ok renderers hprep, hpairs, hfold]
  · intro opts renderers envs rs1 r rs2 e hrs hq hr
    have hprep := prepareAll_error e rs1 r rs2 hq hr
    simp only [runBenchmark, runSuite, hrs, hprep]

/-- A renderer whose `run` always throws a non-`UnsupportedTaskError`. -/
def bRenderer : Renderer :=
  { name := "crasher", prepare := .ok (), run := fun _ _ => .fatal "boom" }

/-- A renderer whose one-time `prepare` fails. -/
def pRenderer : Renderer :=
  { name := "badprep", prepare := .error (.fatal "prep failed")
    run := fun _ _ => .ok (.metric 1) }

/-- The options of the fatal-abort witness: a single workload. -/
def wFatalOpts : CliOptions :=
  { tasks := [.textLayout], iterations := 1, warmup := 1, saveImages := false }

/-- Witness for C2: a crashing second renderer aborts the whole run with
its error, and a failing `prepare` aborts the run before any case. -/
theorem suite_fatal_aborts_witness :
    caseOutcome wFatalOpts wSuiteEnvs (.textLayout, bRenderer) =
      .error (.fatal "boom") ∧
    runBenchmark wFatalOpts [wRenderer, bRenderer] wSuiteEnvs =
      .error (.fatal "boom") ∧
    pRenderer.prepare = .error (.fatal "prep failed") ∧
    runBenchmark wFatalOpts [wRenderer, pRenderer] wSuiteEnvs =
      .error (.fatal "prep failed") :=
  ⟨rfl,
   suite_fatal_aborts.1 wFatalOpts [wRenderer, bRenderer] wSuiteEnvs
     [(.textLayout, wRenderer)] (.textLayout, bRenderer) [] "boom"
     rfl
     (by
       intro r hr
       rcases List.mem_cons.mp hr with rfl | hr
       · rfl
       rcases List.mem_cons.mp hr with rfl | hr
       · rfl
       cases hr)
     (by decide) rfl,
   rfl,
   suite_fatal_aborts.2 wFatalOpts [wRenderer, pRenderer] wSuiteEnvs
     [wRenderer] pRenderer [] (.fatal "prep failed") rfl
     (by
       intro r hr
       rcases List.mem_cons.mp hr with rfl | hr
       · rfl
       cases hr)
     rfl⟩
